import Mathlib

set_option maxRecDepth 40000

/-!
Shallow embedding of src/dgsh_util.c (dgsh-compatibility detection for GNU
Bash).  Byte buffers are `List Nat` (each entry one byte of the mapped file).
Every memory access of the C code is modelled through `readBytes` /
`getElem?` / `cstrEq`, which return `none` when the access would fall outside
the buffer bounds [0, length): a `none` result of an embedded function marks
an out-of-bounds access (undefined behaviour in the C program).
-/

/-- MAX_LINE_LEN from the source. -/
def MAX_LINE_LEN : Nat := 1024

/-- The shebang marker "#!" compared by is_dgsh_program (line 173). -/
def shebangBytes : List Nat := [35, 33]

/-- The ELF magic "\x7fELF" (ELFMAG, SELFMAG = 4). -/
def elfMagicBytes : List Nat := [127, 69, 76, 70]

/-- Script token "dgsh-wrap". -/
def tokWrap : List Nat := [100, 103, 115, 104, 45, 119, 114, 97, 112]

/-- Script token "--dgsh". -/
def tokDdash : List Nat := [45, 45, 100, 103, 115, 104]

/-- Script token "env dgsh". -/
def tokEnv : List Nat := [101, 110, 118, 32, 100, 103, 115, 104]

/-- The second-line marker "#!dgsh" (the `magic` array without its NUL). -/
def magicScript : List Nat := [35, 33, 100, 103, 115, 104]

/-- The section name ".note.ident" compared by strcmp. -/
def noteIdentBytes : List Nat := [46, 110, 111, 116, 101, 46, 105, 100, 101, 110, 116]

/-- DGSH_NAME "DSpinellis/dgsh" including its terminating NUL:
sizeof(DGSH_NAME) = 16 bytes. -/
def dgshNameBytes : List Nat :=
  [68, 83, 112, 105, 110, 101, 108, 108, 105, 115, 47, 100, 103, 115, 104, 0]

/-- Read `n` contiguous bytes at offset `off`; `none` when the range
[off, off+n) is not inside the buffer (the C access would be out of bounds). -/
def readBytes (buf : List Nat) (off n : Nat) : Option (List Nat) :=
  if off + n ≤ buf.length then some ((buf.drop off).take n) else none

/-- Little-endian value of a byte list (x86-64 layout of the ELF structs). -/
def leVal : List Nat → Nat
  | [] => 0
  | b :: bs => b + 256 * leVal bs

/-- Read an `n`-byte little-endian unsigned field at offset `off`. -/
def readLE (buf : List Nat) (off n : Nat) : Option Nat :=
  (readBytes buf off n).map leVal

/-- strcmp(&buf[i], s) == 0, for a NUL-terminated literal `s` (given without
its terminator): compare byte by byte, stopping at the first difference, and
finally require the terminating NUL.  `none` when a compared byte lies outside
the buffer. -/
def cstrEq (buf : List Nat) (i : Nat) : List Nat → Option Bool
  | [] => (buf[i]?).map (fun b => decide (b = 0))
  | c :: cs =>
    (buf[i]?).bind (fun b => if b = c then cstrEq buf (i + 1) cs else some false)

/-- The loop of linenstr (lines 85-90): at haystack position `p`, while
`nlen < hlen - p` and the byte at `p` is not a newline, report `p` when the
needle is a prefix there, else advance.  `fuel` makes the recursion
structural; `linenstr` supplies `fuel = hlen`, enough for every exit. -/
def linenstrGo (buf needle : List Nat) (hlen : Nat) : Nat → Nat → Option Nat
  | _, 0 => none
  | p, fuel + 1 =>
    if needle.length < hlen - p then
      if buf.getD p 0 = 10 then none
      else if needle.isPrefixOf (buf.drop p) then some p
      else linenstrGo buf needle hlen (p + 1) fuel
    else none

/-- linenstr (lines 81-92): position of `needle` in the first line of `buf`,
looking at up to `hlen` bytes. -/
def linenstr (buf needle : List Nat) (hlen : Nat) : Option Nat :=
  linenstrGo buf needle hlen 0 hlen

/-- memchr(buf, ≥\n, len) starting at absolute position `p`: first newline
among the next `len` bytes of the remaining list. -/
def memchrGo : List Nat → Nat → Nat → Option Nat
  | [], _, _ => none
  | _ :: _, 0, _ => none
  | b :: bs, n + 1, p => if b = 10 then some p else memchrGo bs n (p + 1)

/-- is_magic_script_dgsh_program (lines 95-107): the second line (bytes after
the first newline among the first `len`) must hold at least
sizeof("#!dgsh") = 7 bytes and start with the 6 marker bytes. -/
def is_magic_script_dgsh_program (buf : List Nat) (len : Nat) : Bool :=
  match memchrGo buf len 0 with
  | none => false
  | some q =>
    if len - (q + 1) < 7 then false
    else decide ((buf.drop (q + 1)).take 6 = magicScript)

/-- is_script_dgsh_program (lines 111-120): cap the window at
min(len, MAX_LINE_LEN) and OR the three first-line token searches with the
second-line magic check. -/
def is_script_dgsh_program (buf : List Nat) : Bool :=
  let len := min buf.length MAX_LINE_LEN
  (linenstr buf tokWrap len).isSome ||
  (linenstr buf tokDdash len).isSome ||
  (linenstr buf tokEnv len).isSome ||
  is_magic_script_dgsh_program buf len

/-- has_dgsh_section_64 (lines 60-75): iterate section headers `i` from the
current index, `fuel` entries remaining (Elf64_Shdr is 64 bytes, sh_name at
+0, sh_offset at +24; Elf64_Nhdr is 12 bytes, n_namesz at +0).  A section
whose name in the string table is ".note.ident" has its first note checked:
n_namesz must equal sizeof(DGSH_NAME) = 16 and the 16 bytes after the note
header must equal DGSH_NAME. -/
def has_dgsh_section_64 (buf : List Nat) (shoff strOff : Nat) : Nat → Nat → Option Bool
  | _, 0 => some false
  | i, fuel + 1 =>
    (readLE buf (shoff + 64 * i) 4).bind (fun shName =>
    (cstrEq buf (strOff + shName) noteIdentBytes).bind (fun nameEq =>
    if nameEq then
      (readLE buf (shoff + 64 * i + 24) 8).bind (fun shOffset =>
      (readLE buf shOffset 4).bind (fun namesz =>
      if namesz = 16 then
        (readBytes buf (shOffset + 12) 16).bind (fun nm =>
        if nm = dgshNameBytes then some true
        else has_dgsh_section_64 buf shoff strOff (i + 1) fuel)
      else has_dgsh_section_64 buf shoff strOff (i + 1) fuel))
    else has_dgsh_section_64 buf shoff strOff (i + 1) fuel))

/-- has_dgsh_section_32 (lines 43-58): as the 64-bit walk but with
Elf32_Shdr entries of 40 bytes (sh_name at +0, sh_offset at +16, both
4-byte fields); the note layout is identical. -/
def has_dgsh_section_32 (buf : List Nat) (shoff strOff : Nat) : Nat → Nat → Option Bool
  | _, 0 => some false
  | i, fuel + 1 =>
    (readLE buf (shoff + 40 * i) 4).bind (fun shName =>
    (cstrEq buf (strOff + shName) noteIdentBytes).bind (fun nameEq =>
    if nameEq then
      (readLE buf (shoff + 40 * i + 16) 4).bind (fun shOffset =>
      (readLE buf shOffset 4).bind (fun namesz =>
      if namesz = 16 then
        (readBytes buf (shOffset + 12) 16).bind (fun nm =>
        if nm = dgshNameBytes then some true
        else has_dgsh_section_32 buf shoff strOff (i + 1) fuel)
      else has_dgsh_section_32 buf shoff strOff (i + 1) fuel))
    else has_dgsh_section_32 buf shoff strOff (i + 1) fuel))

/-- is_elf_dgsh_program (lines 123-154).  Field offsets: Elf32_Ehdr has
e_shoff at 32 (4 bytes), e_shnum at 48, e_shstrndx at 50 (2 bytes each);
Elf64_Ehdr has e_shoff at 40 (8 bytes), e_shnum at 60, e_shstrndx at 62.
The string-table offset is sh_offset of section header entry e_shstrndx,
read with no validation of e_shstrndx or of any offset, exactly as in the
source. -/
def is_elf_dgsh_program (buf : List Nat) : Option Bool :=
  (readBytes buf 0 4).bind (fun magic =>
  if magic = elfMagicBytes then
    (buf[4]?).bind (fun arch =>
    if arch = 1 then
      (readLE buf 32 4).bind (fun shoff =>
      (readLE buf 50 2).bind (fun shstrndx =>
      (readLE buf (shoff + 40 * shstrndx + 16) 4).bind (fun strOff =>
      (readLE buf 48 2).bind (fun shnum =>
      has_dgsh_section_32 buf shoff strOff 0 shnum))))
    else if arch = 2 then
      (readLE buf 40 8).bind (fun shoff =>
      (readLE buf 62 2).bind (fun shstrndx =>
      (readLE buf (shoff + 64 * shstrndx + 24) 8).bind (fun strOff =>
      (readLE buf 60 2).bind (fun shnum =>
      has_dgsh_section_64 buf shoff strOff 0 shnum))))
    else some false)
  else some false)

/-- The buffer-level classification of is_dgsh_program (lines 173-176):
dispatch on the first two bytes, then the script scanner or the ELF walker.
`none` marks an out-of-bounds access. -/
def classify (buf : List Nat) : Option Bool :=
  (readBytes buf 0 2).bind (fun two =>
  if two = shebangBytes then some (is_script_dgsh_program buf)
  else is_elf_dgsh_program buf)

/-- Outcome of the I/O layer of is_dgsh_program (lines 156-172): the file
either cannot be opened, or mmap fails, or yields the file bytes. -/
inductive FileAccess where
  | unopenable : FileAccess
  | mapFailed : FileAccess
  | content : List Nat → FileAccess

/-- is_dgsh_program (lines 156-179).  open failure returns 0.  mmap failure
returns MAP_FAILED, which the `data == NULL` test does not catch, so the
subsequent memcmp dereferences an invalid pointer (`none`).  A zero-length
file makes mmap fail the same way (mapping length 0 is invalid).  Otherwise
the result is the classification of the bytes, 1 for true and 0 for false. -/
def is_dgsh_program : FileAccess → Option Int
  | FileAccess.unopenable => some 0
  | FileAccess.mapFailed => none
  | FileAccess.content bs =>
    if bs.length = 0 then none
    else (classify bs).map (fun b => if b then 1 else 0)

/-! ### Concrete ELF64 images used as inputs

`truncElf64`: a 64-byte file holding exactly one Elf64_Ehdr whose e_shoff is
0x100000 (far past the end of the file), with e_shnum = 1, e_shstrndx = 0.

`strndxElf64`: a 64-byte file holding one Elf64_Ehdr with e_shoff = 64,
e_shnum = 1 and e_shstrndx = 0xffff, so the string-table section index is
far outside the section-header table.

`mkNote nsz nb`: a 236-byte well-formed ELF64 image: Ehdr (e_shoff = 64,
e_shnum = 2, e_shstrndx = 0), two Elf64_Shdr entries at 64 and 128 (section 0
is the string table at offset 192; section 1 is named ".note.ident" and its
content is at 208), the string table, and one note record whose n_namesz
field is `nsz` and whose 16 name bytes are `nb`.  `preA` is its first 208
bytes, which do not depend on `nsz` or `nb`. -/

def truncElf64 : List Nat :=
  [127, 69, 76, 70, 2] ++ List.replicate 35 0 ++
  [0, 0, 16, 0, 0, 0, 0, 0] ++ List.replicate 12 0 ++ [1, 0] ++ [0, 0]

def strndxElf64 : List Nat :=
  [127, 69, 76, 70, 2] ++ List.replicate 35 0 ++
  [64, 0, 0, 0, 0, 0, 0, 0] ++ List.replicate 12 0 ++ [1, 0] ++ [255, 255]

def elfEhdr64 : List Nat :=
  [127, 69, 76, 70, 2] ++ List.replicate 35 0 ++
  [64, 0, 0, 0, 0, 0, 0, 0] ++ List.replicate 12 0 ++ [2, 0] ++ [0, 0]

def shdr0 : List Nat :=
  [0, 0, 0, 0] ++ List.replicate 20 0 ++ [192, 0, 0, 0, 0, 0, 0, 0] ++ List.replicate 32 0

def shdr1 : List Nat :=
  [1, 0, 0, 0] ++ List.replicate 20 0 ++ [208, 0, 0, 0, 0, 0, 0, 0] ++ List.replicate 32 0

def strtabBytes : List Nat := [0] ++ noteIdentBytes ++ [0] ++ [0, 0, 0]

def preA : List Nat := elfEhdr64 ++ shdr0 ++ shdr1 ++ strtabBytes

def mkNote (nsz : Nat) (nb : List Nat) : List Nat :=
  preA ++ ([nsz, 0, 0, 0] ++ (List.replicate 8 0 ++ nb))

/-- Instrumented 64-bit section scan: the same recursion as
has_dgsh_section_64, additionally counting the loop iterations entered
(second component).  Used to state the C8 iteration bound. -/
def has_dgsh_section_64_instr (buf : List Nat) (shoff strOff : Nat) :
    Nat → Nat → Option Bool × Nat
  | _, 0 => (some false, 0)
  | i, fuel + 1 =>
    match readLE buf (shoff + 64 * i) 4 with
    | none => (none, 1)
    | some shName =>
      match cstrEq buf (strOff + shName) noteIdentBytes with
      | none => (none, 1)
      | some nameEq =>
        if nameEq then
          match readLE buf (shoff + 64 * i + 24) 8 with
          | none => (none, 1)
          | some shOffset =>
            match readLE buf shOffset 4 with
            | none => (none, 1)
            | some namesz =>
              if namesz = 16 then
                match readBytes buf (shOffset + 12) 16 with
                | none => (none, 1)
                | some nm =>
                  if nm = dgshNameBytes then (some true, 1)
                  else
                    ((has_dgsh_section_64_instr buf shoff strOff (i + 1) fuel).1,
                     (has_dgsh_section_64_instr buf shoff strOff (i + 1) fuel).2 + 1)
              else
                ((has_dgsh_section_64_instr buf shoff strOff (i + 1) fuel).1,
                 (has_dgsh_section_64_instr buf shoff strOff (i + 1) fuel).2 + 1)
        else
          ((has_dgsh_section_64_instr buf shoff strOff (i + 1) fuel).1,
           (has_dgsh_section_64_instr buf shoff strOff (i + 1) fuel).2 + 1)

/-- Instrumented 32-bit section scan, mirroring has_dgsh_section_32. -/
def has_dgsh_section_32_instr (buf : List Nat) (shoff strOff : Nat) :
    Nat → Nat → Option Bool × Nat
  | _, 0 => (some false, 0)
  | i, fuel + 1 =>
    match readLE buf (shoff + 40 * i) 4 with
    | none => (none, 1)
    | some shName =>
      match cstrEq buf (strOff + shName) noteIdentBytes with
      | none => (none, 1)
      | some nameEq =>
        if nameEq then
          match readLE buf (shoff + 40 * i + 16) 4 with
          | none => (none, 1)
          | some shOffset =>
            match readLE buf shOffset 4 with
            | none => (none, 1)
            | some namesz =>
              if namesz = 16 then
                match readBytes buf (shOffset + 12) 16 with
                | none => (none, 1)
                | some nm =>
                  if nm = dgshNameBytes then (some true, 1)
                  else
                    ((has_dgsh_section_32_instr buf shoff strOff (i + 1) fuel).1,
                     (has_dgsh_section_32_instr buf shoff strOff (i + 1) fuel).2 + 1)
              else
                ((has_dgsh_section_32_instr buf shoff strOff (i + 1) fuel).1,
                 (has_dgsh_section_32_instr buf shoff strOff (i + 1) fuel).2 + 1)
        else
          ((has_dgsh_section_32_instr buf shoff strOff (i + 1) fuel).1,
           (has_dgsh_section_32_instr buf shoff strOff (i + 1) fuel).2 + 1)

/-! ### Helper lemmas about bounded reads on appended buffers -/

theorem readBytes_append_left (pre nb : List Nat) (off n : Nat) (h : off + n ≤ pre.length) :
    readBytes (pre ++ nb) off n = readBytes pre off n := by
  unfold readBytes
  rw [if_pos (by rw [List.length_append]; omega), if_pos h,
    List.drop_append_of_le_length (by omega),
    List.take_append_of_le_length (by rw [List.length_drop]; omega)]

theorem readBytes_append_right (pre nb : List Nat) :
    readBytes (pre ++ nb) pre.length nb.length = some nb := by
  unfold readBytes
  rw [if_pos (by rw [List.length_append]), List.drop_left, List.take_length]

theorem readBytes_append_mid (pre post : List Nat) (n : Nat) (h : n ≤ post.length) :
    readBytes (pre ++ post) pre.length n = readBytes post 0 n := by
  unfold readBytes
  rw [if_pos (by rw [List.length_append]; omega), if_pos (by omega), List.drop_left,
    List.drop_zero]

theorem readLE_append_left (pre nb : List Nat) (off n : Nat) (h : off + n ≤ pre.length) :
    readLE (pre ++ nb) off n = readLE pre off n := by
  unfold readLE
  rw [readBytes_append_left pre nb off n h]

theorem cstrEq_append_left (pre nb : List Nat) :
    ∀ (s : List Nat) (i : Nat), i + s.length < pre.length →
    cstrEq (pre ++ nb) i s = cstrEq pre i s := by
  intro s
  induction s with
  | nil =>
    intro i h
    unfold cstrEq
    rw [List.getElem?_append_left (by simp at h; omega)]
  | cons c cs ih =>
    intro i h
    unfold cstrEq
    rw [List.getElem?_append_left (by simp at h; omega)]
    cases hb : pre[i]? with
    | none => rfl
    | some b =>
      rw [Option.some_bind, Option.some_bind]
      by_cases hc : b = c
      · rw [if_pos hc, if_pos hc, ih (i + 1) (by simp at h ⊢; omega)]
      · rw [if_neg hc, if_neg hc]

/-! ### Claims C1-C4: ELF walker -/

/-- Claim C1 (code bug): the ELF walker does NOT bounds-check header-derived
offsets.  On a 64-byte file whose e_shoff field is 0x100000 the walker
dereferences shdr[e_shstrndx].sh_offset about 1 MiB past the end of the
buffer instead of returning false: the embedded classification evaluates to
`none` (an out-of-bounds access), refuting the claim that any out-of-range
offset makes the check return false without reading. -/
theorem c1_elf_walker_reads_out_of_bounds :
    truncElf64.length = 64 ∧ classify truncElf64 = none := by decide

/-- Claim C2 (code bug): e_shstrndx is never validated against the section
count or the buffer: on a 64-byte file with e_shnum = 1 and
e_shstrndx = 0xffff the walker reads the section header table entry 0xffff
(about 4 MiB past the buffer end) to locate the string table, instead of
returning false.  The embedded classification evaluates to `none` (an
out-of-bounds access). -/
theorem c2_shstrndx_unvalidated_reads_out_of_bounds :
    strndxElf64.length = 64 ∧ classify strndxElf64 = none := by decide

/-- Claim C3 (code bug): is_dgsh_program has no error channel distinct from
false: an unopenable file returns 0, exactly the value returned for a
readable but incompatible file, and a zero-length file makes mmap fail with
MAP_FAILED, which the code's `data == NULL` test misses, so the subsequent
memcmp dereferences an invalid pointer (`none` in the embedding). -/
theorem c3_io_failure_not_distinct :
    is_dgsh_program FileAccess.unopenable = some 0 ∧
    is_dgsh_program (FileAccess.content []) = none ∧
    is_dgsh_program (FileAccess.content [65, 66, 67, 68]) = some 0 := by decide

/-- Claim C4, counterexample: a well-formed ELF64 image whose `.note.ident`
note has n_namesz = 17 and whose name bytes are exactly "DSpinellis/dgsh"
with its terminator classifies as false, not true: the code compares
n_namesz with sizeof("DSpinellis/dgsh") = 16, not 17. -/
theorem c4_namesz_17_counterexample :
    classify (mkNote 17 dgshNameBytes) = some false := by decide

/-- Claim C4 (amended): in a well-formed ELF64 image with a `.note.ident`
section, classification returns true exactly when the note's name-size field
equals 16 (the byte length of "DSpinellis/dgsh" including its terminator,
which is 16, not 17) and the 16 name bytes equal that identifier exactly;
any other name-size value or any difference in the name bytes yields
false. -/
theorem c4_note_match_amended (nsz : Nat) (nb : List Nat) (hn : nb.length = 16) :
    classify (mkNote nsz nb) =
      some (if nsz = 16 then decide (nb = dgshNameBytes) else false) := by
  have hpa : preA.length = 208 := by decide
  have f1 : readBytes (mkNote nsz nb) 0 2 = some [127, 69] := by
    unfold mkNote; rw [readBytes_append_left _ _ _ _ (by rw [hpa]; omega)]; decide
  have f2 : readBytes (mkNote nsz nb) 0 4 = some elfMagicBytes := by
    unfold mkNote; rw [readBytes_append_left _ _ _ _ (by rw [hpa]; omega)]; decide
  have f3 : (mkNote nsz nb)[4]? = some 2 := by
    unfold mkNote; rw [List.getElem?_append_left (by rw [hpa]; omega)]; decide
  have f4 : readLE (mkNote nsz nb) 40 8 = some 64 := by
    unfold mkNote; rw [readLE_append_left _ _ _ _ (by rw [hpa]; omega)]; decide
  have f5 : readLE (mkNote nsz nb) 62 2 = some 0 := by
    unfold mkNote; rw [readLE_append_left _ _ _ _ (by rw [hpa]; omega)]; decide
  have f6 : readLE (mkNote nsz nb) 88 8 = some 192 := by
    unfold mkNote; rw [readLE_append_left _ _ _ _ (by rw [hpa]; omega)]; decide
  have f7 : readLE (mkNote nsz nb) 60 2 = some 2 := by
    unfold mkNote; rw [readLE_append_left _ _ _ _ (by rw [hpa]; omega)]; decide
  have f8 : readLE (mkNote nsz nb) 64 4 = some 0 := by
    unfold mkNote; rw [readLE_append_left _ _ _ _ (by rw [hpa]; omega)]; decide
  have f9 : cstrEq (mkNote nsz nb) 192 noteIdentBytes = some false := by
    unfold mkNote
    rw [cstrEq_append_left _ _ _ _ (by rw [hpa]; norm_num [noteIdentBytes])]; decide
  have f10 : readLE (mkNote nsz nb) 128 4 = some 1 := by
    unfold mkNote; rw [readLE_append_left _ _ _ _ (by rw [hpa]; omega)]; decide
  have f11 : cstrEq (mkNote nsz nb) 193 noteIdentBytes = some true := by
    unfold mkNote
    rw [cstrEq_append_left _ _ _ _ (by rw [hpa]; norm_num [noteIdentBytes])]; decide
  have f12 : readLE (mkNote nsz nb) 152 8 = some 208 := by
    unfold mkNote; rw [readLE_append_left _ _ _ _ (by rw [hpa]; omega)]; decide
  have f13 : readLE (mkNote nsz nb) 208 4 = some nsz := by
    unfold mkNote readLE
    rw [show (208 : Nat) = preA.length from hpa.symm,
      readBytes_append_mid _ _ _ (by simp),
      readBytes_append_left ([nsz, 0, 0, 0]) _ 0 4 (by simp)]
    have hv : readBytes [nsz, 0, 0, 0] 0 4 = some [nsz, 0, 0, 0] := rfl
    rw [hv]
    simp [leVal]
  have f14 : readBytes (mkNote nsz nb) 220 16 = some nb := by
    have hassoc : mkNote nsz nb = (preA ++ ([nsz, 0, 0, 0] ++ List.replicate 8 0)) ++ nb := by
      simp [mkNote, List.append_assoc]
    have hl : (preA ++ ([nsz, 0, 0, 0] ++ List.replicate 8 0)).length = 220 := by
      simp [hpa]
    have h := readBytes_append_right (preA ++ ([nsz, 0, 0, 0] ++ List.replicate 8 0)) nb
    rw [hl, hn] at h
    rw [hassoc, h]
  unfold classify
  rw [f1, Option.some_bind]
  rw [if_neg (by decide)]
  unfold is_elf_dgsh_program
  rw [f2, Option.some_bind, if_pos rfl, f3, Option.some_bind,
    if_neg (by decide), if_pos rfl, f4, Option.some_bind, f5, Option.some_bind]
  norm_num
  rw [f6, Option.some_bind, f7, Option.some_bind]
  simp only [has_dgsh_section_64]
  rw [f8, Option.some_bind]
  norm_num
  rw [f9, Option.some_bind, if_neg (by decide)]
  rw [f10, Option.some_bind]
  have f11b : cstrEq (mkNote nsz nb) (192 + 1) noteIdentBytes = some true := f11
  rw [f11b, Option.some_bind, if_pos rfl]
  rw [f12, Option.some_bind, f13, Option.some_bind]
  have f14b : readBytes (mkNote nsz nb) (208 + 12) 16 = some nb := f14
  by_cases h16 : nsz = 16
  · rw [if_pos h16, f14b, Option.some_bind]
    by_cases hd : nb = dgshNameBytes
    · simp [h16, hd]
    · rw [if_neg hd]
      simp [has_dgsh_section_64, h16, hd]
  · rw [if_neg h16]
    simp [has_dgsh_section_64, h16]

/-- Claim C4, witness: the amended theorem applied to the exact identifier
bytes with name-size 16 yields a true classification. -/
theorem c4_note_match_witness :
    dgshNameBytes.length = 16 ∧
    classify (mkNote 16 dgshNameBytes) =
      some (if (16 : Nat) = 16 then decide (dgshNameBytes = dgshNameBytes) else false) :=
  ⟨by decide, c4_note_match_amended 16 dgshNameBytes (by decide)⟩

/-! ### Claims C6, C7, C9 -/

/-- Claim C6, counterexample: the script "#!/bin/sh\necho dgsh-wrap\n" is
classified NOT compatible: linenstr stops at the first newline, so the
`dgsh-wrap` token on the second line is never seen, and the second line does
not start with "#!dgsh" either. -/
theorem c6_second_line_token_counterexample :
    classify [35, 33, 47, 98, 105, 110, 47, 115, 104, 10,
              101, 99, 104, 111, 32, 100, 103, 115, 104, 45, 119, 114, 97, 112, 10] =
      some false := by decide

/-- Claim C6 (amended): the buffer "#!/bin/sh\necho dgsh-wrap\n" classifies
as false, because the token search covers only the first line; the same
token placed on the first line, as in "#!x dgsh-wrap \n", classifies as
true. -/
theorem c6_first_line_only_amended :
    classify [35, 33, 47, 98, 105, 110, 47, 115, 104, 10,
              101, 99, 104, 111, 32, 100, 103, 115, 104, 45, 119, 114, 97, 112, 10] =
      some false ∧
    classify [35, 33, 120, 32, 100, 103, 115, 104, 45, 119, 114, 97, 112, 32, 10] =
      some true := by decide

/-- Claim C7, counterexample: the one-byte buffer 0x7f begins with neither
"#!" nor the 4-byte ELF magic, yet classification does not return false: the
code's two-byte memcmp reads past the end of the buffer (`none`), so the
claim as stated fails for buffers shorter than the compared prefixes. -/
theorem c7_short_buffer_counterexample :
    classify [127] = none := by decide

/-- Claim C7 (amended): provided the inspected bytes exist, unrecognized
inputs are a normal negative result: a buffer of length at least 4 that
begins with neither "#!" nor the ELF magic classifies as false, and a buffer
that begins with the ELF magic and whose class byte (index 4) is neither 1
nor 2 classifies as false; buffers too short for those reads hit an
unchecked out-of-bounds access instead. -/
theorem c7_negative_result_amended :
    (∀ buf : List Nat, 4 ≤ buf.length → buf.take 2 ≠ shebangBytes →
      buf.take 4 ≠ elfMagicBytes → classify buf = some false) ∧
    (∀ (buf : List Nat) (b : Nat), buf.take 4 = elfMagicBytes → buf[4]? = some b →
      b ≠ 1 → b ≠ 2 → classify buf = some false) := by
  constructor
  · intro buf h4 hns hnm
    unfold classify
    have h1 : readBytes buf 0 2 = some (buf.take 2) := by
      unfold readBytes; rw [if_pos (by omega), List.drop_zero]
    rw [h1, Option.some_bind, if_neg hns]
    unfold is_elf_dgsh_program
    have h2 : readBytes buf 0 4 = some (buf.take 4) := by
      unfold readBytes; rw [if_pos (by omega), List.drop_zero]
    rw [h2, Option.some_bind, if_neg hnm]
  · intro buf b hm h4 hb1 hb2
    have hlen : 4 < buf.length := by
      by_contra hc
      push_neg at hc
      rw [List.getElem?_eq_none (by omega)] at h4
      simp at h4
    have h1 : readBytes buf 0 2 = some (buf.take 2) := by
      unfold readBytes; rw [if_pos (by omega), List.drop_zero]
    have ht2 : buf.take 2 = [127, 69] := by
      have h22 : buf.take 2 = (buf.take 4).take 2 := by rw [List.take_take]; norm_num
      rw [h22, hm]
      decide
    unfold classify
    rw [h1, Option.some_bind, if_neg (by rw [ht2]; decide)]
    unfold is_elf_dgsh_program
    have h2 : readBytes buf 0 4 = some (buf.take 4) := by
      unfold readBytes; rw [if_pos (by omega), List.drop_zero]
    rw [h2, Option.some_bind, if_pos hm, h4, Option.some_bind, if_neg hb1, if_neg hb2]

/-- Claim C7, witness: the amended theorem applied to the 4-byte zero buffer
(neither shebang nor ELF magic) and to an ELF-magic buffer whose class byte
is 9. -/
theorem c7_negative_result_witness :
    classify [0, 0, 0, 0] = some false ∧ classify [127, 69, 76, 70, 9] = some false :=
  ⟨c7_negative_result_amended.1 [0, 0, 0, 0] (by decide) (by decide) (by decide),
   c7_negative_result_amended.2 [127, 69, 76, 70, 9] 9 (by decide) (by decide)
     (by decide) (by decide)⟩

/-- Claim C9 (confirmed): the buffer-level classification is a pure function
of the byte content, so two invocations on equal contents give equal
results; in this embedding determinism holds by construction. -/
theorem c9_deterministic :
    ∀ b1 b2 : List Nat, b1 = b2 → classify b1 = classify b2 := by
  intro b1 b2 h
  rw [h]

/-- Claim C9, witness: the determinism theorem applied to a concrete
buffer. -/
theorem c9_deterministic_witness :
    classify [35, 33, 10] = classify [35, 33, 10] :=
  c9_deterministic [35, 33, 10] [35, 33, 10] rfl

/-! ### Claim C10: linenstr strict window bound -/

theorem linenstrGo_some_bound (buf needle : List Nat) (hlen : Nat) :
    ∀ (fuel p q : Nat), linenstrGo buf needle hlen p fuel = some q →
    q + needle.length < hlen := by
  intro fuel
  induction fuel with
  | zero => intro p q h; simp [linenstrGo] at h
  | succ fuel ih =>
    intro p q h
    unfold linenstrGo at h
    split_ifs at h with h1 h2 h3
    all_goals first
      | (exact Option.noConfusion h)
      | (rw [Option.some_inj] at h; omega)
      | (exact ih (p + 1) q h)

/-- Claim C10 (confirmed): linenstr reports a match at position p only when
p plus the token length is strictly below the window length, so at least one
byte must follow the token inside the window; consequently the scripts
"#!a dgsh-wrap", "#!a --dgsh" and "#! env dgsh", each of which ends exactly
at the final byte of its token, classify as false. -/
theorem c10_token_needs_trailing_byte :
    (∀ (buf needle : List Nat) (hlen p : Nat),
      linenstr buf needle hlen = some p → p + needle.length < hlen) ∧
    classify [35, 33, 97, 32, 100, 103, 115, 104, 45, 119, 114, 97, 112] = some false ∧
    classify [35, 33, 97, 32, 45, 45, 100, 103, 115, 104] = some false ∧
    classify [35, 33, 32, 101, 110, 118, 32, 100, 103, 115, 104] = some false := by
  refine ⟨?_, by decide, by decide, by decide⟩
  intro buf needle hlen p h
  exact linenstrGo_some_bound buf needle hlen hlen 0 p h

/-- Claim C10, witness: on the buffer "dgsh-wrapx" with window 10 the token
is found at position 0, and the theorem yields 0 + 9 < 10. -/
theorem c10_token_needs_trailing_byte_witness :
    linenstr [100, 103, 115, 104, 45, 119, 114, 97, 112, 120] tokWrap 10 = some 0 ∧
    0 + tokWrap.length < 10 :=
  ⟨by decide,
   c10_token_needs_trailing_byte.1 [100, 103, 115, 104, 45, 119, 114, 97, 112, 120]
     tokWrap 10 0 (by decide)⟩

/-! ### Claim C5: second-line magic check -/

theorem memchrGo_none (l : List Nat) :
    ∀ (n p : Nat), (∀ x ∈ l.take n, x ≠ 10) → memchrGo l n p = none := by
  induction l with
  | nil => intro n p h; cases n <;> rfl
  | cons b bs ih =>
    intro n p h
    cases n with
    | zero => rfl
    | succ n =>
      unfold memchrGo
      rw [if_neg (h b (by rw [List.take_succ_cons]; exact List.mem_cons_self b _))]
      exact ih n (p + 1)
        (fun x hx => h x (by rw [List.take_succ_cons]; exact List.mem_cons_of_mem b hx))

theorem memchrGo_append_found :
    ∀ (l1 rest : List Nat) (n p : Nat), ¬ 10 ∈ l1 →
    n = l1.length + 1 + rest.length →
    memchrGo (l1 ++ 10 :: rest) n p = some (p + l1.length) := by
  intro l1
  induction l1 with
  | nil =>
    intro rest n p h hn
    cases n with
    | zero => simp at hn; omega
    | succ n =>
      rw [List.nil_append]
      unfold memchrGo
      rw [if_pos rfl]
      simp
  | cons a l1 ih =>
    intro rest n p h hn
    cases n with
    | zero => simp at hn; omega
    | succ n =>
      rw [List.cons_append]
      unfold memchrGo
      rw [if_neg (by intro ha; exact h (by rw [ha]; exact List.mem_cons_self 10 l1))]
      rw [ih rest n (p + 1) (fun hm => h (List.mem_cons_of_mem a hm))
        (by simp at hn ⊢; omega)]
      rw [Option.some_inj, List.length_cons]
      omega

theorem take_eq_of_isPrefixOf :
    ∀ (s t : List Nat), s.isPrefixOf t = true → t.take s.length = s := by
  intro s
  induction s with
  | nil => intro t _; rfl
  | cons c cs ih =>
    intro t h
    cases t with
    | nil => simp [List.isPrefixOf] at h
    | cons a t =>
      rw [show (c :: cs).isPrefixOf (a :: t) = (c == a && cs.isPrefixOf t) from rfl,
        Bool.and_eq_true, beq_iff_eq] at h
      rw [List.length_cons, List.take_succ_cons, ih t h.2, h.1]

theorem drop_after_newline (l1 rest : List Nat) :
    (l1 ++ 10 :: rest).drop (l1.length + 1) = rest := by
  have h1 : (l1 ++ 10 :: rest).drop (l1.length + 1) =
      ((l1 ++ 10 :: rest).drop l1.length).drop 1 := by
    rw [List.drop_drop]
  rw [h1, List.drop_left]
  rfl

/-- Claim C5, counterexample: in "#!a\n#!dgsh" exactly 6 bytes (the full
marker) follow the first newline, yet classification is false: the code
requires at least sizeof("#!dgsh") = 7 remaining bytes before comparing the
6 marker bytes, so "at least as long as the marker" is not sufficient. -/
theorem c5_exact_marker_len_counterexample :
    classify [35, 33, 97, 10, 35, 33, 100, 103, 115, 104] = some false := by decide

/-- Claim C5 (amended): writing the buffer as l1 ++ newline ++ rest with no
newline in l1 and the length passed as the code does, the second-line check
succeeds when rest holds at least 7 bytes (the 6-byte marker plus the
terminator byte the code counts) and begins with the marker; it returns
false, without error, when fewer than 7 bytes follow the newline or when the
buffer holds no newline at all; and a shebang buffer whose second-line check
succeeds classifies as true. -/
theorem c5_second_line_amended :
    (∀ l1 rest : List Nat, ¬ 10 ∈ l1 → 7 ≤ rest.length →
      magicScript.isPrefixOf rest = true →
      is_magic_script_dgsh_program (l1 ++ 10 :: rest) (l1.length + 1 + rest.length) = true) ∧
    (∀ l1 rest : List Nat, ¬ 10 ∈ l1 → rest.length < 7 →
      is_magic_script_dgsh_program (l1 ++ 10 :: rest) (l1.length + 1 + rest.length) = false) ∧
    (∀ (buf : List Nat) (len : Nat), ¬ 10 ∈ buf →
      is_magic_script_dgsh_program buf len = false) ∧
    (∀ buf : List Nat, buf.take 2 = shebangBytes →
      is_magic_script_dgsh_program buf (min buf.length MAX_LINE_LEN) = true →
      classify buf = some true) := by
  refine ⟨?_, ?_, ?_, ?_⟩
  · intro l1 rest h10 h7 hp
    unfold is_magic_script_dgsh_program
    rw [memchrGo_append_found l1 rest (l1.length + 1 + rest.length) 0 h10 rfl]
    rw [show (0 + l1.length : Nat) = l1.length from by omega]
    show (if l1.length + 1 + rest.length - (l1.length + 1) < 7 then false
          else decide (((l1 ++ 10 :: rest).drop (l1.length + 1)).take 6 = magicScript)) = true
    rw [show l1.length + 1 + rest.length - (l1.length + 1) = rest.length from by omega]
    rw [if_neg (by omega)]
    rw [drop_after_newline]
    rw [show rest.take 6 = magicScript from take_eq_of_isPrefixOf magicScript rest hp]
    simp
  · intro l1 rest h10 h7
    unfold is_magic_script_dgsh_program
    rw [memchrGo_append_found l1 rest (l1.length + 1 + rest.length) 0 h10 rfl]
    rw [show (0 + l1.length : Nat) = l1.length from by omega]
    show (if l1.length + 1 + rest.length - (l1.length + 1) < 7 then false
          else decide (((l1 ++ 10 :: rest).drop (l1.length + 1)).take 6 = magicScript)) = false
    rw [show l1.length + 1 + rest.length - (l1.length + 1) = rest.length from by omega]
    rw [if_pos h7]
  · intro buf len h10
    unfold is_magic_script_dgsh_program
    rw [memchrGo_none buf len 0
      (fun x hx hx10 => h10 (by rw [← hx10]; exact List.take_subset len buf hx))]
  · intro buf hsb hm
    have hl2 : 2 ≤ buf.length := by
      rcases buf with _ | ⟨x, t⟩
      · simp [shebangBytes] at hsb
      · rcases t with _ | ⟨y, t⟩
        · simp [shebangBytes] at hsb
        · simp [List.length_cons]
    unfold classify
    have h1 : readBytes buf 0 2 = some (buf.take 2) := by
      unfold readBytes; rw [if_pos (by omega), List.drop_zero]
    rw [h1, Option.some_bind, if_pos hsb]
    show some ((linenstr buf tokWrap (min buf.length MAX_LINE_LEN)).isSome ||
      (linenstr buf tokDdash (min buf.length MAX_LINE_LEN)).isSome ||
      (linenstr buf tokEnv (min buf.length MAX_LINE_LEN)).isSome ||
      is_magic_script_dgsh_program buf (min buf.length MAX_LINE_LEN)) = some true
    rw [hm]
    simp

/-- Claim C5, witness: the buffer "#!a\n#!dgshx" (7 bytes after the first
newline, beginning with the marker) makes the second-line check succeed, and
the whole classification is true. -/
theorem c5_second_line_witness :
    is_magic_script_dgsh_program ([35, 33, 97] ++ 10 :: [35, 33, 100, 103, 115, 104, 120])
      (([35, 33, 97] : List Nat).length + 1 +
        ([35, 33, 100, 103, 115, 104, 120] : List Nat).length) = true ∧
    classify [35, 33, 97, 10, 35, 33, 100, 103, 115, 104, 120] = some true :=
  ⟨c5_second_line_amended.1 [35, 33, 97] [35, 33, 100, 103, 115, 104, 120]
     (by decide) (by decide) (by decide),
   c5_second_line_amended.2.2.2 [35, 33, 97, 10, 35, 33, 100, 103, 115, 104, 120]
     (by decide) (by decide)⟩

/-! ### Claim C8: bounded scans -/

theorem has64_instr_spec (buf : List Nat) (shoff strOff : Nat) :
    ∀ (fuel i : Nat),
    (has_dgsh_section_64_instr buf shoff strOff i fuel).1 =
      has_dgsh_section_64 buf shoff strOff i fuel ∧
    (has_dgsh_section_64_instr buf shoff strOff i fuel).2 ≤ fuel := by
  intro fuel
  induction fuel with
  | zero => intro i; exact ⟨rfl, Nat.le_refl 0⟩
  | succ fuel ih =>
    intro i
    unfold has_dgsh_section_64_instr has_dgsh_section_64
    cases h1 : readLE buf (shoff + 64 * i) 4 with
    | none => exact ⟨rfl, by dsimp only; omega⟩
    | some shName =>
      rw [Option.some_bind]
      dsimp only
      cases h2 : cstrEq buf (strOff + shName) noteIdentBytes with
      | none => exact ⟨rfl, by dsimp only; omega⟩
      | some nameEq =>
        rw [Option.some_bind]
        dsimp only
        cases nameEq with
        | false =>
          rw [if_neg (by simp), if_neg (by simp)]
          exact ⟨(ih (i + 1)).1, by dsimp only; have := (ih (i + 1)).2; omega⟩
        | true =>
          rw [if_pos rfl, if_pos rfl]
          cases h3 : readLE buf (shoff + 64 * i + 24) 8 with
          | none => exact ⟨rfl, by dsimp only; omega⟩
          | some shOffset =>
            rw [Option.some_bind]
            dsimp only
            cases h4 : readLE buf shOffset 4 with
            | none => exact ⟨rfl, by dsimp only; omega⟩
            | some namesz =>
              rw [Option.some_bind]
              dsimp only
              by_cases h16 : namesz = 16
              · rw [if_pos h16, if_pos h16]
                cases h5 : readBytes buf (shOffset + 12) 16 with
                | none => exact ⟨rfl, by dsimp only; omega⟩
                | some nm =>
                  rw [Option.some_bind]
                  dsimp only
                  by_cases hd : nm = dgshNameBytes
                  · rw [if_pos hd, if_pos hd]
                    exact ⟨rfl, by dsimp only; omega⟩
                  · rw [if_neg hd, if_neg hd]
                    exact ⟨(ih (i + 1)).1, by dsimp only; have := (ih (i + 1)).2; omega⟩
              · rw [if_neg h16, if_neg h16]
                exact ⟨(ih (i + 1)).1, by dsimp only; have := (ih (i + 1)).2; omega⟩

theorem has32_instr_spec (buf : List Nat) (shoff strOff : Nat) :
    ∀ (fuel i : Nat),
    (has_dgsh_section_32_instr buf shoff strOff i fuel).1 =
      has_dgsh_section_32 buf shoff strOff i fuel ∧
    (has_dgsh_section_32_instr buf shoff strOff i fuel).2 ≤ fuel := by
  intro fuel
  induction fuel with
  | zero => intro i; exact ⟨rfl, Nat.le_refl 0⟩
  | succ fuel ih =>
    intro i
    unfold has_dgsh_section_32_instr has_dgsh_section_32
    cases h1 : readLE buf (shoff + 40 * i) 4 with
    | none => exact ⟨rfl, by dsimp only; omega⟩
    | some shName =>
      rw [Option.some_bind]
      dsimp only
      cases h2 : cstrEq buf (strOff + shName) noteIdentBytes with
      | none => exact ⟨rfl, by dsimp only; omega⟩
      | some nameEq =>
        rw [Option.some_bind]
        dsimp only
        cases nameEq with
        | false =>
          rw [if_neg (by simp), if_neg (by simp)]
          exact ⟨(ih (i + 1)).1, by dsimp only; have := (ih (i + 1)).2; omega⟩
        | true =>
          rw [if_pos rfl, if_pos rfl]
          cases h3 : readLE buf (shoff + 40 * i + 16) 4 with
          | none => exact ⟨rfl, by dsimp only; omega⟩
          | some shOffset =>
            rw [Option.some_bind]
            dsimp only
            cases h4 : readLE buf shOffset 4 with
            | none => exact ⟨rfl, by dsimp only; omega⟩
            | some namesz =>
              rw [Option.some_bind]
              dsimp only
              by_cases h16 : namesz = 16
              · rw [if_pos h16, if_pos h16]
                cases h5 : readBytes buf (shOffset + 12) 16 with
                | none => exact ⟨rfl, by dsimp only; omega⟩
                | some nm =>
                  rw [Option.some_bind]
                  dsimp only
                  by_cases hd : nm = dgshNameBytes
                  · rw [if_pos hd, if_pos hd]
                    exact ⟨rfl, by dsimp only; omega⟩
                  · rw [if_neg hd, if_neg hd]
                    exact ⟨(ih (i + 1)).1, by dsimp only; have := (ih (i + 1)).2; omega⟩
              · rw [if_neg h16, if_neg h16]
                exact ⟨(ih (i + 1)).1, by dsimp only; have := (ih (i + 1)).2; omega⟩

theorem isPrefixOf_take_eq (s : List Nat) :
    ∀ (t : List Nat) (m : Nat), s.length ≤ m →
    s.isPrefixOf (t.take m) = s.isPrefixOf t := by
  induction s with
  | nil => intro t m _; simp [List.isPrefixOf]
  | cons c cs ih =>
    intro t m h
    cases t with
    | nil => rw [List.take_nil]
    | cons a t =>
      cases m with
      | zero => simp [List.length_cons] at h
      | succ m =>
        rw [List.take_succ_cons]
        rw [show (c :: cs).isPrefixOf (a :: t.take m) = (c == a && cs.isPrefixOf (t.take m))
          from rfl]
        rw [show (c :: cs).isPrefixOf (a :: t) = (c == a && cs.isPrefixOf t) from rfl]
        rw [ih t m (by simp [List.length_cons] at h; omega)]

theorem linenstrGo_take_1024 (buf needle : List Nat) (hlen : Nat) (hh : hlen ≤ 1024) :
    ∀ (fuel p : Nat),
    linenstrGo (buf.take 1024) needle hlen p fuel = linenstrGo buf needle hlen p fuel := by
  intro fuel
  induction fuel with
  | zero => intro p; rfl
  | succ fuel ih =>
    intro p
    unfold linenstrGo
    by_cases h1 : needle.length < hlen - p
    · rw [if_pos h1, if_pos h1]
      have hp : p < 1024 := by omega
      have hgd : (buf.take 1024).getD p 0 = buf.getD p 0 := by
        rw [List.getD_eq_getElem?_getD, List.getD_eq_getElem?_getD,
          List.getElem?_take_of_lt hp]
      rw [hgd]
      by_cases h2 : buf.getD p 0 = 10
      · rw [if_pos h2, if_pos h2]
      · rw [if_neg h2, if_neg h2]
        have hdp : (buf.take 1024).drop p = (buf.drop p).take (1024 - p) := by
          rw [List.drop_take]
        rw [hdp, isPrefixOf_take_eq needle (buf.drop p) (1024 - p) (by omega)]
        by_cases h3 : needle.isPrefixOf (buf.drop p) = true
        · rw [if_pos h3, if_pos h3]
        · rw [if_neg h3, if_neg h3, ih]
    · rw [if_neg h1, if_neg h1]

theorem linenstr_take_1024 (buf needle : List Nat) (hlen : Nat) (hh : hlen ≤ 1024) :
    linenstr (buf.take 1024) needle hlen = linenstr buf needle hlen := by
  unfold linenstr
  exact linenstrGo_take_1024 buf needle hlen hh hlen 0

theorem memchrGo_take :
    ∀ (l : List Nat) (k n p : Nat), n ≤ k →
    memchrGo (l.take k) n p = memchrGo l n p := by
  intro l
  induction l with
  | nil => intro k n p _; rw [List.take_nil]
  | cons b bs ih =>
    intro k n p h
    cases k with
    | zero =>
      have hn : n = 0 := by omega
      subst hn
      rw [List.take_zero]
      rfl
    | succ k =>
      rw [List.take_succ_cons]
      cases n with
      | zero => rfl
      | succ n =>
        unfold memchrGo
        by_cases hb : b = 10
        · rw [if_pos hb, if_pos hb]
        · rw [if_neg hb, if_neg hb, ih k n (p + 1) (by omega)]

theorem memchrGo_some_lt :
    ∀ (l : List Nat) (n p q : Nat), memchrGo l n p = some q → p ≤ q ∧ q < p + n := by
  intro l
  induction l with
  | nil => intro n p q h; exact absurd h (by rw [show memchrGo [] n p = none from rfl]; simp)
  | cons b bs ih =>
    intro n p q h
    cases n with
    | zero => exact absurd h (by rw [show memchrGo (b :: bs) 0 p = none from rfl]; simp)
    | succ n =>
      unfold memchrGo at h
      by_cases hb : b = 10
      · rw [if_pos hb, Option.some_inj] at h
        omega
      · rw [if_neg hb] at h
        have := ih n (p + 1) q h
        omega

theorem is_magic_take_1024 (buf : List Nat) (len : Nat) (h : len ≤ 1024) :
    is_magic_script_dgsh_program (buf.take 1024) len =
      is_magic_script_dgsh_program buf len := by
  unfold is_magic_script_dgsh_program
  rw [memchrGo_take buf 1024 len 0 h]
  cases hm : memchrGo buf len 0 with
  | none => rfl
  | some q =>
    have hq := memchrGo_some_lt buf len 0 q hm
    dsimp only
    by_cases h7 : len - (q + 1) < 7
    · rw [if_pos h7, if_pos h7]
    · rw [if_neg h7, if_neg h7]
      rw [List.drop_take, List.take_take, Nat.min_eq_left (by omega)]

theorem is_script_window (buf : List Nat) :
    is_script_dgsh_program buf = is_script_dgsh_program (buf.take 1024) := by
  have hlen : min (buf.take 1024).length MAX_LINE_LEN = min buf.length MAX_LINE_LEN := by
    rw [List.length_take]
    unfold MAX_LINE_LEN
    omega
  have hcap : min buf.length MAX_LINE_LEN ≤ 1024 := by
    unfold MAX_LINE_LEN
    omega
  show ((linenstr buf tokWrap (min buf.length MAX_LINE_LEN)).isSome ||
      (linenstr buf tokDdash (min buf.length MAX_LINE_LEN)).isSome ||
      (linenstr buf tokEnv (min buf.length MAX_LINE_LEN)).isSome ||
      is_magic_script_dgsh_program buf (min buf.length MAX_LINE_LEN)) =
    ((linenstr (buf.take 1024) tokWrap (min (buf.take 1024).length MAX_LINE_LEN)).isSome ||
      (linenstr (buf.take 1024) tokDdash (min (buf.take 1024).length MAX_LINE_LEN)).isSome ||
      (linenstr (buf.take 1024) tokEnv (min (buf.take 1024).length MAX_LINE_LEN)).isSome ||
      is_magic_script_dgsh_program (buf.take 1024) (min (buf.take 1024).length MAX_LINE_LEN))
  rw [hlen, linenstr_take_1024 buf tokWrap _ hcap, linenstr_take_1024 buf tokDdash _ hcap,
    linenstr_take_1024 buf tokEnv _ hcap, is_magic_take_1024 buf _ hcap]

/-- Claim C8 (confirmed): the script scan depends only on the first
min(length, 1024) bytes of the buffer, and the instrumented section scans
agree with the real ones while entering at most as many iterations as the
declared section count, independent of the header values. -/
theorem c8_bounded_scan :
    (∀ buf : List Nat, is_script_dgsh_program buf = is_script_dgsh_program (buf.take 1024)) ∧
    (∀ (buf : List Nat) (shoff strOff i n : Nat),
      (has_dgsh_section_64_instr buf shoff strOff i n).1 =
        has_dgsh_section_64 buf shoff strOff i n ∧
      (has_dgsh_section_64_instr buf shoff strOff i n).2 ≤ n) ∧
    (∀ (buf : List Nat) (shoff strOff i n : Nat),
      (has_dgsh_section_32_instr buf shoff strOff i n).1 =
        has_dgsh_section_32 buf shoff strOff i n ∧
      (has_dgsh_section_32_instr buf shoff strOff i n).2 ≤ n) :=
  ⟨fun buf => is_script_window buf,
   fun buf shoff strOff i n => has64_instr_spec buf shoff strOff n i,
   fun buf shoff strOff i n => has32_instr_spec buf shoff strOff n i⟩
